import Mathlib

/-!
Shallow embedding of `src/main.rs` of the `range-perf` benchmark.

The program sums numeric ranges of `u64` in three ways: a plain exclusive
range `low..up`, a plain inclusive range `low..=up`, and a
`DynamicInclusiveRange` that picks one of the two representations at
construction time.  `u64` values are modelled as `Nat` with explicit
`% 2 ^ 64` where the code wraps; the standard-library iterators
`Range<u64>` and `RangeInclusive<u64>` are modelled by their state and
`next` step function, and the finite sequence an iterator yields is
extracted with an explicitly fueled unfolding of `next`.
-/

namespace RangePerf

/-- `u64::max_value()`. -/
def U64_MAX : Nat := 2 ^ 64 - 1

/-- `u64::wrapping_add`: addition reduced modulo `2 ^ 64`. -/
def wrapping_add (x y : Nat) : Nat := (x + y) % 2 ^ 64

/-- Embeds `fn calc(iter: impl Iterator<Item = u64>) -> u64`, i.e.
`iter.fold(0u64, |x, y| x.wrapping_add(y))`.  The iterator argument is
represented by the list of elements it yields.  (The Rust name `calc` is a
Lean keyword, hence the suffix.) -/
def calcSum (l : List Nat) : Nat := l.foldl (fun x y => wrapping_add x y) 0

/-- Embeds `std::ops::Range<u64>` (`start..stop`).  The Rust field `end` is
renamed `stop` because `end` is a Lean keyword. -/
structure Range where
  start : Nat
  stop : Nat

/-- One step of `<Range<u64> as Iterator>::next`: yield `start` and bump it
while `start < stop`, otherwise the iterator is finished. -/
def Range.next (r : Range) : Option (Nat × Range) :=
  if r.start < r.stop then some (r.start, ⟨r.start + 1, r.stop⟩) else none

/-- Embeds `std::ops::RangeInclusive<u64>`: fields `start`, `end` (renamed
`stop`) and the `exhausted` flag.  The literal `a..=b` constructs it with
`exhausted = false`. -/
structure RangeInclusive where
  start : Nat
  stop : Nat
  exhausted : Bool

/-- One step of `<RangeInclusive<u64> as Iterator>::next`: `none` when
exhausted or `start > stop`; while `start < stop` yield `start` and bump it;
when `start = stop` yield `start` and set `exhausted`. -/
def RangeInclusive.next (r : RangeInclusive) : Option (Nat × RangeInclusive) :=
  if r.exhausted then none
  else if r.start < r.stop then some (r.start, ⟨r.start + 1, r.stop, false⟩)
  else if r.start = r.stop then some (r.start, ⟨r.start, r.stop, true⟩)
  else none

/-- Fueled unfolding of `Range.next`. -/
def Range.toListAux : Nat → Range → List Nat
  | 0, _ => []
  | fuel + 1, r =>
    match r.next with
    | none => []
    | some (x, r') => x :: Range.toListAux fuel r'

/-- The finite sequence yielded by iterating a `Range`; `stop - start` steps
of fuel are exactly enough. -/
def Range.toList (r : Range) : List Nat := Range.toListAux (r.stop - r.start) r

/-- Fueled unfolding of `RangeInclusive.next`. -/
def RangeInclusive.toListAux : Nat → RangeInclusive → List Nat
  | 0, _ => []
  | fuel + 1, r =>
    match r.next with
    | none => []
    | some (x, r') => x :: RangeInclusive.toListAux fuel r'

/-- The finite sequence yielded by iterating a `RangeInclusive`;
`stop + 2 - start` steps of fuel are always enough. -/
def RangeInclusive.toList (r : RangeInclusive) : List Nat :=
  RangeInclusive.toListAux (r.stop + 2 - r.start) r

/-- Embeds `enum DynamicInclusiveRange<T>` at `T = u64`. -/
inductive DynamicInclusiveRange
  | Inclusive : RangeInclusive → DynamicInclusiveRange
  | NonInclusive : Range → DynamicInclusiveRange

/-- Embeds `DynamicInclusiveRange::new(from, inclusive_to)`: pick the
inclusive representation when `inclusive_to == u64::max_value()` (so that
`inclusive_to + 1` is never computed), otherwise the exclusive one with
upper bound `inclusive_to + 1`.  (`from` is a Lean keyword, renamed `frm`.) -/
def DynamicInclusiveRange.new (frm inclusive_to : Nat) : DynamicInclusiveRange :=
  if inclusive_to = U64_MAX then
    DynamicInclusiveRange.Inclusive ⟨frm, inclusive_to, false⟩
  else
    DynamicInclusiveRange.NonInclusive ⟨frm, inclusive_to + 1⟩

/-- Embeds `<DynamicInclusiveRange<u64> as Iterator>::next`, which delegates
to the wrapped range's `next`. -/
def DynamicInclusiveRange.next :
    DynamicInclusiveRange → Option (Nat × DynamicInclusiveRange)
  | Inclusive r => (r.next).map fun p => (p.1, Inclusive p.2)
  | NonInclusive r => (r.next).map fun p => (p.1, NonInclusive p.2)

/-- The finite sequence yielded by a `DynamicInclusiveRange`; since its
`next` delegates to the wrapped range, so does its sequence. -/
def DynamicInclusiveRange.toList : DynamicInclusiveRange → List Nat
  | Inclusive r => r.toList
  | NonInclusive r => r.toList

/-- `criterion::black_box`: semantically the identity function. -/
def black_box {α : Type} (x : α) : α := x

/-- Embeds `get_low_and_up`: the batch-setup closure producing a fresh
`(low, up) = (black_box(1), black_box(up))` pair. -/
def get_low_and_up (up : Nat) : Nat × Nat := (black_box 1, black_box up)

/-- Which of the three summation strategies a benchmark case times. -/
inductive Strategy
  | nonInclusive
  | inclusive
  | dynamic

/-- A benchmark case as registered with criterion: its strategy and the
upper bound it was constructed with. -/
structure BenchCase where
  strategy : Strategy
  up : Nat

/-- Embeds `make_non_inclusive(up)` (the data it closes over). -/
def make_non_inclusive (up : Nat) : BenchCase := ⟨Strategy.nonInclusive, up⟩

/-- Embeds `make_inclusive(up)` (the data it closes over). -/
def make_inclusive (up : Nat) : BenchCase := ⟨Strategy.inclusive, up⟩

/-- Embeds `make_dynamic(up)` (the data it closes over). -/
def make_dynamic (up : Nat) : BenchCase := ⟨Strategy.dynamic, up⟩

/-- Embeds `fn ranges`: the list of benchmark cases registered with the
criterion harness. -/
def ranges : List BenchCase :=
  [make_non_inclusive (U64_MAX - 1), make_inclusive (U64_MAX - 1),
   make_dynamic (U64_MAX - 1), make_non_inclusive U64_MAX,
   make_inclusive U64_MAX, make_dynamic U64_MAX]

/-- The timed routine of a strategy on a bound pair `(low, up)`: the bodies
`|(low, up)| calc(black_box(low..up))`, `|(low, up)| calc(black_box(low..=up))`
and `|(low, up)| calc(black_box(DynamicInclusiveRange::new(low, up)))`. -/
def Strategy.routine : Strategy → Nat × Nat → Nat
  | Strategy.nonInclusive, p => calcSum (Range.toList (black_box ⟨p.1, p.2⟩))
  | Strategy.inclusive, p => calcSum (RangeInclusive.toList (black_box ⟨p.1, p.2, false⟩))
  | Strategy.dynamic, p =>
      calcSum (DynamicInclusiveRange.toList (black_box (DynamicInclusiveRange.new p.1 p.2)))

/-- One execution of a strategy's timed operation with the ambient external
state `σ` threaded explicitly: the Rust closure body touches no state
outside its arguments, so the embedding returns `σ` unchanged. -/
def Strategy.timedOp {W : Type} (s : Strategy) (p : Nat × Nat) (σ : W) : Nat × W :=
  (s.routine p, σ)

/-! ### Helper lemmas -/

theorem range_toListAux_spec (fuel : Nat) :
    ∀ lo hi : Nat, hi - lo ≤ fuel →
      Range.toListAux fuel ⟨lo, hi⟩ = List.range' lo (hi - lo) := by
  induction fuel with
  | zero =>
    intro lo hi h
    have h0 : hi - lo = 0 := Nat.le_zero.mp h
    simp [Range.toListAux, h0]
  | succ n ih =>
    intro lo hi h
    by_cases hlt : lo < hi
    · have h1 : hi - lo = (hi - (lo + 1)) + 1 := by omega
      rw [Range.toListAux]
      simp only [Range.next, hlt, if_pos]
      rw [ih (lo + 1) hi (by omega), h1, List.range']
    · have h0 : hi - lo = 0 := by omega
      rw [Range.toListAux]
      simp [Range.next, hlt, h0]

theorem range_toList_spec (lo hi : Nat) :
    Range.toList ⟨lo, hi⟩ = List.range' lo (hi - lo) :=
  range_toListAux_spec (hi - lo) lo hi (Nat.le_refl _)

theorem RangeInclusive.toListAux_exhausted (fuel lo hi : Nat) :
    RangeInclusive.toListAux fuel ⟨lo, hi, true⟩ = [] := by
  cases fuel with
  | zero => rfl
  | succ n => simp [RangeInclusive.toListAux, RangeInclusive.next]

theorem rangeInclusive_toListAux_spec (fuel : Nat) :
    ∀ lo hi : Nat, hi + 1 - lo < fuel →
      RangeInclusive.toListAux fuel ⟨lo, hi, false⟩ = List.range' lo (hi + 1 - lo) := by
  induction fuel with
  | zero => intro lo hi h; omega
  | succ n ih =>
    intro lo hi h
    rcases Nat.lt_trichotomy lo hi with hlt | heq | hgt
    · have h1 : hi + 1 - lo = (hi + 1 - (lo + 1)) + 1 := by omega
      rw [RangeInclusive.toListAux]
      simp only [RangeInclusive.next, hlt, if_pos, Bool.false_eq_true, if_false]
      rw [ih (lo + 1) hi (by omega), h1, List.range']
    · subst heq
      have h1 : lo + 1 - lo = 1 := by omega
      rw [RangeInclusive.toListAux]
      simp only [RangeInclusive.next, Nat.lt_irrefl, if_false, Bool.false_eq_true]
      simp [RangeInclusive.toListAux_exhausted, h1, List.range']
    · have h0 : hi + 1 - lo = 0 := by omega
      have hnlt : ¬ lo < hi := by omega
      have hne : ¬ lo = hi := by omega
      rw [RangeInclusive.toListAux]
      simp [RangeInclusive.next, hnlt, hne, h0]

theorem rangeInclusive_toList_spec (lo hi : Nat) :
    RangeInclusive.toList ⟨lo, hi, false⟩ = List.range' lo (hi + 1 - lo) := by
  show RangeInclusive.toListAux (hi + 2 - lo) ⟨lo, hi, false⟩ = _
  by_cases h : lo ≤ hi + 1
  · exact rangeInclusive_toListAux_spec _ lo hi (by omega)
  · have h2 : hi + 2 - lo = 0 := by omega
    have h3 : hi + 1 - lo = 0 := by omega
    rw [h2, h3]
    simp [RangeInclusive.toListAux]

theorem DynamicInclusiveRange.toList_new (frm hi : Nat) :
    (DynamicInclusiveRange.new frm hi).toList = List.range' frm (hi + 1 - frm) := by
  unfold DynamicInclusiveRange.new
  by_cases h : hi = U64_MAX
  · rw [if_pos h]
    show RangeInclusive.toList ⟨frm, hi, false⟩ = _
    exact rangeInclusive_toList_spec frm hi
  · rw [if_neg h]
    show Range.toList ⟨frm, hi + 1⟩ = _
    exact range_toList_spec frm (hi + 1)

theorem foldl_wrapping_add (l : List Nat) :
    ∀ a : Nat, l.foldl (fun x y => wrapping_add x y) (a % 2 ^ 64) = (a + l.sum) % 2 ^ 64 := by
  induction l with
  | nil => intro a; simp
  | cons y t ih =>
    intro a
    have hM : (2 : Nat) ^ 64 = 18446744073709551616 := by norm_num
    have h1 : wrapping_add (a % 2 ^ 64) y = (a + y) % 2 ^ 64 := by
      simp only [wrapping_add, hM]
      omega
    simp only [List.foldl_cons, List.sum_cons, h1, ih (a + y)]
    ring_nf

theorem calcSum_eq (l : List Nat) : calcSum l = l.sum % 2 ^ 64 := by
  have h := foldl_wrapping_add l 0
  simpa [calcSum] using h

/-! ### Claim theorems -/

/-- C1: for every pair `(low, high)` of 64-bit unsigned integers, the sum
computed by `calc` of `DynamicInclusiveRange::new(low, high)` equals the sum
computed by `calc` of the plain inclusive range `low..=high`. -/
theorem dynamic_sum_eq_inclusive_sum (low high : Nat)
    (hlow : low < 2 ^ 64) (hhigh : high < 2 ^ 64) :
    calcSum (DynamicInclusiveRange.new low high).toList =
      calcSum (RangeInclusive.toList ⟨low, high, false⟩) := by
  rw [DynamicInclusiveRange.toList_new, rangeInclusive_toList_spec]

/-- C1 witness: the equality at the representative pair `(1, 10)` and at the
boundary pairs `(1, u64::MAX - 1)` and `(1, u64::MAX)`. -/
theorem dynamic_sum_eq_inclusive_sum_witness :
    (calcSum (DynamicInclusiveRange.new 1 10).toList =
      calcSum (RangeInclusive.toList ⟨1, 10, false⟩)) ∧
    (calcSum (DynamicInclusiveRange.new 1 (U64_MAX - 1)).toList =
      calcSum (RangeInclusive.toList ⟨1, U64_MAX - 1, false⟩)) ∧
    (calcSum (DynamicInclusiveRange.new 1 U64_MAX).toList =
      calcSum (RangeInclusive.toList ⟨1, U64_MAX, false⟩)) :=
  ⟨dynamic_sum_eq_inclusive_sum 1 10 (by decide) (by norm_num),
   dynamic_sum_eq_inclusive_sum 1 (U64_MAX - 1) (by decide) (by norm_num [U64_MAX]),
   dynamic_sum_eq_inclusive_sum 1 U64_MAX (by decide) (by norm_num [U64_MAX])⟩

/-- C2: `DynamicInclusiveRange::new(from, inclusive_to)` chooses the
`Inclusive` representation iff `inclusive_to = u64::MAX`, otherwise the
`NonInclusive` representation with exclusive end `inclusive_to + 1`, and the
enumerated sequence equals the inclusive range's sequence either way. -/
theorem new_representation_choice (frm hi : Nat) (hto : hi < 2 ^ 64) :
    (hi = U64_MAX →
      DynamicInclusiveRange.new frm hi = DynamicInclusiveRange.Inclusive ⟨frm, hi, false⟩) ∧
    (hi ≠ U64_MAX →
      DynamicInclusiveRange.new frm hi = DynamicInclusiveRange.NonInclusive ⟨frm, hi + 1⟩) ∧
    (DynamicInclusiveRange.new frm hi).toList = RangeInclusive.toList ⟨frm, hi, false⟩ := by
  refine ⟨fun h => ?_, fun h => ?_, ?_⟩
  · simp [DynamicInclusiveRange.new, h]
  · simp [DynamicInclusiveRange.new, h]
  · rw [DynamicInclusiveRange.toList_new, rangeInclusive_toList_spec]

/-- C2 witness: the representation choice and sequence equality at
`(from, inclusive_to) = (1, 10)`. -/
theorem new_representation_choice_witness :
    (10 = U64_MAX →
      DynamicInclusiveRange.new 1 10 = DynamicInclusiveRange.Inclusive ⟨1, 10, false⟩) ∧
    (10 ≠ U64_MAX →
      DynamicInclusiveRange.new 1 10 = DynamicInclusiveRange.NonInclusive ⟨1, 11⟩) ∧
    (DynamicInclusiveRange.new 1 10).toList = RangeInclusive.toList ⟨1, 10, false⟩ :=
  new_representation_choice 1 10 (by decide)

/-- C3: at `inclusive_to = u64::MAX` the constructor takes the `Inclusive`
branch (so `inclusive_to + 1` is never computed) and the producer enumerates
exactly `low, low + 1, ..., u64::MAX`. -/
theorem new_at_max_no_overflow (low : Nat) (hlow : low < 2 ^ 64) :
    DynamicInclusiveRange.new low U64_MAX =
      DynamicInclusiveRange.Inclusive ⟨low, U64_MAX, false⟩ ∧
    (DynamicInclusiveRange.new low U64_MAX).toList = List.range' low (U64_MAX + 1 - low) := by
  constructor
  · simp [DynamicInclusiveRange.new]
  · exact DynamicInclusiveRange.toList_new low U64_MAX

/-- C3 witness: the `Inclusive` branch and the enumerated sequence at
`low = 1`. -/
theorem new_at_max_no_overflow_witness :
    DynamicInclusiveRange.new 1 U64_MAX =
      DynamicInclusiveRange.Inclusive ⟨1, U64_MAX, false⟩ ∧
    (DynamicInclusiveRange.new 1 U64_MAX).toList = List.range' 1 (U64_MAX + 1 - 1) :=
  new_at_max_no_overflow 1 (by decide)

/-- C4: for `low ≤ high` with `high + 1` representable in 64 bits, the sum
via `calc` of the exclusive range `low..(high + 1)` equals the sum of the
inclusive range `low..=high`. -/
theorem exclusive_sum_eq_inclusive_sum (low high : Nat)
    (hle : low ≤ high) (hov : high + 1 < 2 ^ 64) :
    calcSum (Range.toList ⟨low, high + 1⟩) =
      calcSum (RangeInclusive.toList ⟨low, high, false⟩) := by
  rw [range_toList_spec, rangeInclusive_toList_spec]

/-- C4 witness: the equality at `(low, high) = (1, 10)`. -/
theorem exclusive_sum_eq_inclusive_sum_witness :
    calcSum (Range.toList ⟨1, 11⟩) = calcSum (RangeInclusive.toList ⟨1, 10, false⟩) :=
  exclusive_sum_eq_inclusive_sum 1 10 (by decide) (by norm_num)

/-- C5: `calc` returns the sum of the elements reduced modulo `2 ^ 64`
(silent wraparound); in particular on `[u64::MAX - 1, u64::MAX]` it returns
`(u64::MAX - 1) + u64::MAX` with 64-bit wraparound. -/
theorem calc_wraps_mod_two_pow_64 :
    (∀ l : List Nat, (∀ x ∈ l, x < 2 ^ 64) → calcSum l = l.sum % 2 ^ 64) ∧
    calcSum [U64_MAX - 1, U64_MAX] = ((U64_MAX - 1) + U64_MAX) % 2 ^ 64 := by
  constructor
  · intro l _
    exact calcSum_eq l
  · decide

/-- C5 witness: the modular-sum law applied to the concrete list `[3, 4]`. -/
theorem calc_wraps_mod_two_pow_64_witness :
    calcSum [3, 4] = [3, 4].sum % 2 ^ 64 :=
  calc_wraps_mod_two_pow_64.1 [3, 4] (by decide)

/-- C6: `calc` of the empty sequence is `0`; in particular an exclusive range
with `stop ≤ start` sums to `0`. -/
theorem calc_empty_eq_zero :
    calcSum ([] : List Nat) = 0 ∧
    ∀ low stop : Nat, stop ≤ low → calcSum (Range.toList ⟨low, stop⟩) = 0 := by
  refine ⟨rfl, fun low stop h => ?_⟩
  rw [range_toList_spec]
  have h0 : stop - low = 0 := by omega
  rw [h0]
  rfl

/-- C6 witness: the empty-range sum at `(low, stop) = (5, 3)`. -/
theorem calc_empty_eq_zero_witness :
    calcSum (Range.toList ⟨5, 3⟩) = 0 :=
  calc_empty_eq_zero.2 5 3 (by decide)

/-- C7: at `low = 1, high = 10` the exclusive producer `1..11`, the inclusive
producer `1..=10` and `DynamicInclusiveRange::new(1, 10)` all sum to `55`
under `calc`. -/
theorem all_strategies_sum_55 :
    calcSum (Range.toList ⟨1, 11⟩) = 55 ∧
    calcSum (RangeInclusive.toList ⟨1, 10, false⟩) = 55 ∧
    calcSum (DynamicInclusiveRange.new 1 10).toList = 55 := by
  refine ⟨by decide, by decide, by decide⟩

/-- C8 counterexample: no registered benchmark case uses a mid-range upper
bound — every upper bound in `ranges` is at least `u64::MAX - 1`, so the set
of upper bounds does not contain a representative mid-range value. -/
theorem no_midrange_upper_bound : ¬ ∃ c ∈ ranges, c.up < U64_MAX - 1 := by
  decide

/-- C8 amended: every registered case obtains lower bound `1` from
`get_low_and_up`, and the set of upper bounds used across the cases is
exactly `{u64::MAX - 1, u64::MAX}` (both occur, and nothing else). -/
theorem ranges_bounds :
    (∀ c ∈ ranges, (get_low_and_up c.up).1 = 1) ∧
    (∀ c ∈ ranges, c.up = U64_MAX - 1 ∨ c.up = U64_MAX) ∧
    (∃ c ∈ ranges, c.up = U64_MAX - 1) ∧
    (∃ c ∈ ranges, c.up = U64_MAX) := by
  decide

/-- C9: each timed operation is pure and deterministic — its result depends
only on the strategy and the bound pair, not on any ambient state; it leaves
the ambient state unchanged; and running it twice in sequence yields the
same result. -/
theorem timedOp_pure_deterministic {W : Type} (s : Strategy) (low up : Nat) (σ σ' : W) :
    (s.timedOp (low, up) σ).1 = (s.timedOp (low, up) σ').1 ∧
    (s.timedOp (low, up) σ).2 = σ ∧
    (s.timedOp (low, up) ((s.timedOp (low, up) σ).2)).1 = (s.timedOp (low, up) σ).1 :=
  ⟨rfl, rfl, rfl⟩

/-- C10: for 64-bit `low > inclusive_to` the dynamic producer is empty: its
first `next` returns `none`, it enumerates `[]`, and its `calc` sum is `0`. -/
theorem dynamic_empty_when_low_gt_high (low hi : Nat)
    (hlow : low < 2 ^ 64) (hto : hi < 2 ^ 64) (hgt : hi < low) :
    DynamicInclusiveRange.next (DynamicInclusiveRange.new low hi) = none ∧
    (DynamicInclusiveRange.new low hi).toList = [] ∧
    calcSum (DynamicInclusiveRange.new low hi).toList = 0 := by
  have hM : (2 : Nat) ^ 64 = 18446744073709551616 := by norm_num
  have hne : hi ≠ U64_MAX := by
    simp only [U64_MAX, hM] at *
    omega
  have hnlt : ¬ low < hi + 1 := by omega
  have h0 : hi + 1 - low = 0 := by omega
  refine ⟨?_, ?_, ?_⟩
  · simp [DynamicInclusiveRange.new, hne, DynamicInclusiveRange.next, Range.next, hnlt]
  · rw [DynamicInclusiveRange.toList_new, h0]
    rfl
  · rw [DynamicInclusiveRange.toList_new, h0]
    rfl

/-- C10 witness: the empty dynamic producer at `(low, inclusive_to) = (5, 3)`. -/
theorem dynamic_empty_when_low_gt_high_witness :
    DynamicInclusiveRange.next (DynamicInclusiveRange.new 5 3) = none ∧
    (DynamicInclusiveRange.new 5 3).toList = [] ∧
    calcSum (DynamicInclusiveRange.new 5 3).toList = 0 :=
  dynamic_empty_when_low_gt_high 5 3 (by decide) (by decide) (by decide)

end RangePerf
